import Mathlib

/-!
Verification of the OEDGE plotting utility (oedge_plots.py).

The file gives a shallow embedding of the data-access core of the
OedgePlots class.  Arrays loaded from the netCDF file are modelled as
total functions on natural-number indices with rational values; the
object state (the cached arrays loaded in the constructor) is a `Grid`
structure.  Machine floats are modelled by exact rationals: none of the
verified properties depends on rounding.  Fallible Python operations
(numpy shape errors, uncaught exceptions) are modelled with `Option`
and an explicit `PyResult` outcome type.
-/

namespace Oedge

/-- A netCDF variable as fetched by `self.nc[dataname][:]`: either a 2-D
array indexed by ring and knot, or a 3-D array whose leading axis indexes
charge states. -/
inductive RawData where
  | d2 (f : ℕ → ℕ → ℚ)
  | d3 (n : ℕ) (f : ℕ → ℕ → ℕ → ℚ)

/-- The `charge` argument of `read_data_2d`: Python `None`, the string
"all", or an integer charge state. -/
inductive Charge where
  | cnone
  | call
  | cstate (c : ℕ)

/-- The `scaling` argument of `read_data_2d`: the string "Ring" (a secret
option returning the ring number at each cell) or a numeric factor. -/
inductive Scaling where
  | ring
  | factor (s : ℚ)

/-- The cached state of an OedgePlots object after `__init__`: the netCDF
arrays the data-extraction methods read.  `rsRows`/`rsCols` record the
(fixed) shape of the cell-centre arrays `RS`/`ZS`; `korpg` holds integer
polygon indices (Python ints, so ℤ); `rvertp`/`zvertp` accept the raw
(possibly negative, via Python indexing) row index; `nc` is the netCDF
lookup for the remaining named variables; `dat_file` is the optional text
of the .dat file loaded by `add_dat_file`. -/
structure Grid where
  nrs : ℕ
  nks : ℕ → ℕ
  area : ℕ → ℕ → ℚ
  rs : ℕ → ℕ → ℚ
  zs : ℕ → ℕ → ℚ
  rsRows : ℕ
  rsCols : ℕ
  korpg : ℕ → ℕ → ℤ
  rvertp : ℤ → ℕ → ℚ
  zvertp : ℤ → ℕ → ℚ
  irsep : ℤ
  kss : ℕ → ℕ → ℚ
  ksmaxs : ℕ → ℚ
  ksb : ℕ → ℕ → ℚ
  qtim : ℚ
  nc : String → RawData
  dat_file : Option String

/-- The (ir, ik) pairs visited by the nested loops
`for ir in range(self.nrs): for ik in range(self.nks[ir])`,
in ring-major, knot-minor order. -/
def allCells (g : Grid) : List (ℕ × ℕ) :=
  (List.range g.nrs).flatMap (fun ir => (List.range (g.nks ir)).map (fun ik => (ir, ik)))

/-- The cells kept by the loops: those with `self.area[ir,ik] != 0.0`,
in visit order. -/
def cellList (g : Grid) : List (ℕ × ℕ) :=
  (allCells g).filter (fun p => decide (g.area p.1 p.2 ≠ 0))

/-- The polygon of a cell:
`list(zip(self.rvertp[index][0:4], self.zvertp[index][0:4]))` with
`index = self.korpg[ir,ik] - 1`.  The vertex arrays are modelled as
total functions (the real arrays have five columns, so `[0:4]` always
yields four entries). -/
def cellVertices (g : Grid) (ir ik : ℕ) : List (ℚ × ℚ) :=
  (List.range 4).map
    (fun j => (g.rvertp (g.korpg ir ik - 1) j, g.zvertp (g.korpg ir ik - 1) j))

/-- `self.mesh`: one polygon per nonzero-area cell, in loop order. -/
def mesh (g : Grid) : List (List (ℚ × ℚ)) :=
  (cellList g).map (fun p => cellVertices g p.1 p.2)

/-- `self.num_cells`: the counter incremented once per appended polygon. -/
def num_cells (g : Grid) : ℕ :=
  (cellList g).length

/-- One iteration of the `__init__` mesh loop, threading the loop state
(mesh so far, num_cells so far, cells warned about so far).  The
`contains` argument models `mpl.path.Path(...).contains_point`; a failed
check only appends to the warning log (the Python code only prints). -/
def init_step (g : Grid) (contains : List (ℚ × ℚ) → ℚ × ℚ → Bool)
    (st : List (List (ℚ × ℚ)) × ℕ × List (ℕ × ℕ)) (p : ℕ × ℕ) :
    List (List (ℚ × ℚ)) × ℕ × List (ℕ × ℕ) :=
  if g.area p.1 p.2 ≠ 0 then
    (st.1 ++ [cellVertices g p.1 p.2], st.2.1 + 1,
      if contains (cellVertices g p.1 p.2) (g.rs p.1 p.2, g.zs p.1 p.2) then st.2.2
      else st.2.2 ++ [p])
  else st

/-- The full `__init__` mesh-construction loop, including the cell-centre
sanity check. -/
def init_mesh (g : Grid) (contains : List (ℚ × ℚ) → ℚ × ℚ → Bool) :
    List (List (ℚ × ℚ)) × ℕ × List (ℕ × ℕ) :=
  (allCells g).foldl (init_step g contains) ([], 0, [])

/-- Fetching `raw_data` in `read_data_2d`: the special "Snorm" option
computes `abs(KSB/ksmaxs + (KSB/ksmaxs)/1.0 - 1.0)`; every other name is
looked up in the netCDF file. -/
def rawFetch (g : Grid) (dataname : String) : RawData :=
  if dataname = "Snorm" then
    RawData.d2 (fun ir ik =>
      |g.ksb ir ik / g.ksmaxs ir + (g.ksb ir ik / g.ksmaxs ir) / 1 - 1|)
  else g.nc dataname

/-- The scalar taken from `raw_data` for one cell, as selected by the
`charge` argument.  Combinations in which the Python indexing would not
produce a scalar (indexing a 3-D array with two subscripts, summing a
2-D array over axis 0 and then using two subscripts, an out-of-range
charge slice) are `none`, mirroring the numpy failure. -/
def cellVal (raw : RawData) (ch : Charge) (ir ik : ℕ) : Option ℚ :=
  match ch, raw with
  | Charge.cnone, RawData.d2 f => Option.some (f ir ik)
  | Charge.call, RawData.d3 n f =>
      Option.some (Finset.sum (Finset.range n) (fun c => f c ir ik))
  | Charge.cstate c, RawData.d3 n f =>
      if c + 1 < n then Option.some (f (c + 1) ir ik) else Option.none
  | _, _ => Option.none

/-- The value stored in `data[count]` for one kept cell: the ring number
for the "Ring" option, otherwise the selected raw value times the
scaling factor, then zeroed by the `no_core` mask for rings with
`ir < irsep - 1`.  Note the mask lives in the non-"Ring" branch only,
exactly as in the source. -/
def cellEntry (g : Grid) (raw : RawData) (ch : Charge) (sc : Scaling)
    (noCore : Bool) (p : ℕ × ℕ) : Option ℚ :=
  match sc with
  | Scaling.ring => Option.some ((p.1 : ℚ))
  | Scaling.factor s =>
    match cellVal raw ch p.1 p.2 with
    | Option.none => Option.none
    | Option.some v =>
        Option.some (if noCore ∧ (p.1 : ℤ) < g.irsep - 1 then 0 else v * s)

/-- Mapping a fallible function over a list, failing if any element
fails (the shape of a Python loop that can raise). -/
def optMap {α β : Type} (f : α → Option β) : List α → Option (List β)
  | [] => Option.some []
  | x :: xs =>
    match f x, optMap f xs with
    | Option.some y, Option.some ys => Option.some (y :: ys)
    | _, _ => Option.none

/-- The filling loop of `read_data_2d`: one entry per nonzero-area cell,
in ring-major, knot-minor order. -/
def read_core (g : Grid) (raw : RawData) (ch : Charge) (sc : Scaling)
    (noCore : Bool) : Option (List ℚ) :=
  optMap (cellEntry g raw ch sc noCore) (cellList g)

/-- `np.max` of a 1-D array; `none` on an empty array (numpy raises). -/
def listMax : List ℚ → Option ℚ
  | [] => Option.none
  | x :: xs => Option.some (xs.foldl max x)

/-- The `fix_fill` postprocessing step:
`data[np.where(data == data.max())] = None`.  A `none` entry models the
NaN written by assigning Python `None` into a float array. -/
def applyFixFill (fixFill : Bool) (data : List ℚ) : Option (List (Option ℚ)) :=
  if fixFill then
    match listMax data with
    | Option.none => Option.none
    | Option.some m =>
        Option.some (data.map (fun x => if x = m then Option.none else Option.some x))
  else Option.some (data.map Option.some)

/-- `read_data_2d(dataname, charge, scaling, fix_fill, no_core)`. -/
def read_data_2d (g : Grid) (dataname : String) (charge : Charge)
    (scaling : Scaling) (fixFill : Bool) (noCore : Bool) :
    Option (List (Option ℚ)) :=
  match read_core g (rawFetch g dataname) charge scaling noCore with
  | Option.none => Option.none
  | Option.some data => applyFixFill fixFill data

/-- The separatrix ring index `self.irsep - 1` (rings are 1-indexed in
the netCDF file; `irsep ≥ 1` in every real file, so the truncation in
`toNat` is inert). -/
def sepRing (g : Grid) : ℕ :=
  (g.irsep - 1).toNat

/-- `nsep = len(rsep)`, the knot count of the separatrix ring. -/
def nsep (g : Grid) : ℕ :=
  g.nks (sepRing g)

/-- `rsep[i] = self.rvertp[self.korpg[irsep-1, i]][0]` (note: no `- 1`
on the korpg value here, exactly as in the source). -/
def rsep (g : Grid) (i : ℕ) : ℚ :=
  g.rvertp (g.korpg (sepRing g) i) 0

/-- `zsep[i] = self.zvertp[self.korpg[irsep-1, i]][0]`. -/
def zsep (g : Grid) (i : ℕ) : ℚ :=
  g.zvertp (g.korpg (sepRing g) i) 0

/-- `get_sep()`: the list built by
`for i in range(nsep-2): lines.append([(rsep[i], zsep[i]), (rsep[i+1], zsep[i+1])])`. -/
def get_sep (g : Grid) : List ((ℚ × ℚ) × (ℚ × ℚ)) :=
  (List.range (nsep g - 2)).map
    (fun i => ((rsep g i, zsep g i), (rsep g (i + 1), zsep g (i + 1))))

/-- All index pairs of the cell-centre arrays `RS`/`ZS`, in row-major
(C) order, the order in which `np.where` reports matches. -/
def allIdx (g : Grid) : List (ℕ × ℕ) :=
  (List.range g.rsRows).flatMap (fun ir => (List.range g.rsCols).map (fun ik => (ir, ik)))

/-- The squared distance `(r - rs[ir,ik])**2 + (z - zs[ir,ik])**2`.  The
source takes `np.sqrt` of this; since the square root is strictly
increasing on nonnegatives, the minimising index set is unchanged, and
the theorems about `find_ring_knot` are stated with `Real.sqrt`. -/
def distSq (g : Grid) (r z : ℚ) (p : ℕ × ℕ) : ℚ :=
  (r - g.rs p.1 p.2) ^ 2 + (z - g.zs p.1 p.2) ^ 2

/-- `dist.min()` over the whole array (junk value 0 for an empty array,
where numpy would raise). -/
def dminOf (g : Grid) (r z : ℚ) : ℚ :=
  match allIdx g with
  | [] => 0
  | q :: qs => (qs.map (distSq g r z)).foldl min (distSq g r z q)

/-- `find_ring_knot(r, z)`: the first index pair (row-major) at which
the distance attains its minimum, i.e.
`(np.where(dist == dist.min())[0][0], np.where(...)[1][0])`. -/
def find_ring_knot (g : Grid) (r z : ℚ) : ℕ × ℕ :=
  ((allIdx g).find? (fun p => decide (distSq g r z p = dminOf g r z))).getD (0, 0)

/-- The specification of find_ring_knot: the returned pair is an index
pair of the cell-centre arrays whose Euclidean distance to (r, z) — the
square root of the squared distance, as the source computes with
np.sqrt — is minimal over all index pairs, and it is the first such
pair in row-major order. -/
def ClosestSpec (g : Grid) (r z : ℚ) : Prop :=
  find_ring_knot g r z ∈ allIdx g
  ∧ (∀ p ∈ allIdx g,
      Real.sqrt ((distSq g r z (find_ring_knot g r z) : ℝ)) ≤
        Real.sqrt ((distSq g r z p : ℝ)))
  ∧ ∃ n, ∃ hn : n < (allIdx g).length,
      (allIdx g).get ⟨n, hn⟩ = find_ring_knot g r z
      ∧ ∀ m (hm : m < (allIdx g).length), m < n →
          Real.sqrt ((distSq g r z (find_ring_knot g r z) : ℝ)) <
            Real.sqrt ((distSq g r z ((allIdx g).get ⟨m, hm⟩) : ℝ))

/-- A Python call outcome: a normal return, or an uncaught exception. -/
inductive PyResult (α : Type) where
  | ok (a : α)
  | raised (e : String)

/-- The possible return values of `read_data_2d_kvhs_t13`: `-1`, `None`,
or the data array. -/
inductive KvhsRet where
  | negOne
  | noneVal
  | data (l : List ℚ)

/-- Python `str.split()` with no separator: split on whitespace runs,
dropping empty fields. -/
def pyWords (s : String) : List String :=
  (s.split (fun c => c.isWhitespace)).filter (fun w => w ≠ "")

/-- The header line whose text delimits the extra-drift table in the
.dat file. -/
def driftTableHeader : String :=
  "TABLE OF DRIFT REGION BY RING - RINGS WITHOUT FLOW ARE NOT LISTED\n"

/-- Looking up ring `ir` in the drift table (`add_df.loc[ir]`): first
row whose IR column equals the ring number. -/
def t13Row (tbl : List (ℚ × ℚ × ℚ × ℚ)) (ir : ℕ) : Option (ℚ × ℚ × ℚ × ℚ) :=
  tbl.find? (fun row => decide (row.1 = (ir : ℚ)))

/-- One entry of the `read_data_2d_kvhs_t13` data array:
`KVHS[ir][ik] * (1/qtim)`, plus the ring drift when
`S_START < kss[ir][ik] < S_END`, then the `no_core` zeroing. -/
def kvhsEntry (g : Grid) (f : ℕ → ℕ → ℚ) (tbl : List (ℚ × ℚ × ℚ × ℚ))
    (noCore : Bool) (p : ℕ × ℕ) : ℚ :=
  let base := f p.1 p.2 * (1 / g.qtim)
  let withDrift :=
    match t13Row tbl p.1 with
    | Option.some row =>
        if g.kss p.1 p.2 > row.2.2.1 ∧ g.kss p.1 p.2 < row.2.2.2
        then base + row.2.1 else base
    | Option.none => base
  if noCore ∧ (p.1 : ℤ) < g.irsep - 1 then 0 else withDrift

/-- `read_data_2d_kvhs_t13(no_core)`.  `parseFloat` abstracts Python
`float(...)` (a `none` result models an uncaught ValueError).  Key
control-flow facts mirrored from the source: when `dat_file` is `None`
the function prints a warning but does NOT return, so
`self.dat_file.split(...)` raises an uncaught AttributeError; only
IndexError (a missing "POL DRIFT OPT" field or a missing drift table)
is caught and turned into the `None` return; a zero poloidal drift
option returns `-1`.  The DataFrame construction is modelled as
requiring four floats per table row, and `.loc` as first-match lookup. -/
def read_data_2d_kvhs_t13 (g : Grid) (parseFloat : String → Option ℚ)
    (noCore : Bool) : PyResult KvhsRet :=
  match g.dat_file with
  | Option.none => PyResult.raised "AttributeError"
  | Option.some dat =>
    let parts := dat.splitOn "POL DRIFT OPT"
    if parts.length < 2 then PyResult.ok KvhsRet.noneVal
    else
      match parseFloat (((parts.getD 1 "").splitOn ":").headD "") with
      | Option.none => PyResult.raised "ValueError"
      | Option.some polOpt =>
        if polOpt = 0 then PyResult.ok KvhsRet.negOne
        else
          let tparts := dat.splitOn driftTableHeader
          if tparts.length < 2 then PyResult.ok KvhsRet.noneVal
          else
            let lines := (((tparts.getD 1 "").splitOn "DRIFT").headD "").splitOn "\n"
            match optMap (fun line =>
                match optMap parseFloat (pyWords line) with
                | Option.some row =>
                    if row.length = 4 then Option.some row else Option.none
                | Option.none => Option.none) ((lines.drop 1).dropLast) with
            | Option.none => PyResult.raised "ValueError"
            | Option.some rows =>
              let tbl := rows.map (fun row =>
                (row.headD 0, (row.getD 1 0, (row.getD 2 0, row.getD 3 0))))
              match g.nc "KVHS" with
              | RawData.d3 _ _ => PyResult.raised "IndexError"
              | RawData.d2 f =>
                  PyResult.ok (KvhsRet.data
                    ((cellList g).map (kvhsEntry g f tbl noCore)))

/-- The 2-D field used by the concrete example grid below. -/
def exF : ℕ → ℕ → ℚ :=
  fun ir ik => ir * 10 + ik

/-- A small concrete grid (two rings of two knots, all areas nonzero,
separatrix at ring index 1) used to instantiate the theorems. -/
def exGrid : Grid where
  nrs := 2
  nks := fun _ => 2
  area := fun _ _ => 1
  rs := fun ir ik => ir + ik
  zs := fun _ _ => 0
  rsRows := 2
  rsCols := 2
  korpg := fun ir ik => 2 * ir + ik + 1
  rvertp := fun i j => i + j
  zvertp := fun i j => i - j
  irsep := 2
  kss := fun _ _ => 0
  ksmaxs := fun _ => 1
  ksb := fun _ _ => 0
  qtim := 1
  nc := fun _ => RawData.d2 exF
  dat_file := Option.none

/-- A two-cell grid (one knot per ring) whose field values expose the
interaction of the core mask with the fix_fill maximum. -/
def cgrid : Grid where
  nrs := 2
  nks := fun _ => 1
  area := fun _ _ => 1
  rs := fun _ _ => 0
  zs := fun _ _ => 0
  rsRows := 2
  rsCols := 1
  korpg := fun _ _ => 1
  rvertp := fun _ _ => 0
  zvertp := fun _ _ => 0
  irsep := 2
  kss := fun _ _ => 0
  ksmaxs := fun _ => 1
  ksb := fun _ _ => 0
  qtim := 1
  nc := fun _ => RawData.d2 (fun ir _ => if ir = 0 then 5 else 3)
  dat_file := Option.none

/-- The method-call view of `read_data_2d`: the Python method binds only
local names, so the embedding returns the object state unchanged. -/
def read_data_2d_call (g : Grid) (dataname : String) (charge : Charge)
    (scaling : Scaling) (fixFill : Bool) (noCore : Bool) :
    Option (List (Option ℚ)) × Grid :=
  (read_data_2d g dataname charge scaling fixFill noCore, g)

/-- The method-call view of `get_sep`. -/
def get_sep_call (g : Grid) : List ((ℚ × ℚ) × (ℚ × ℚ)) × Grid :=
  (get_sep g, g)

/-- The method-call view of `find_ring_knot`. -/
def find_ring_knot_call (g : Grid) (r z : ℚ) : (ℕ × ℕ) × Grid :=
  (find_ring_knot g r z, g)

/-! ### Helper lemmas -/

theorem optMap_map {α β : Type} (f : α → Option β) (v : α → β) (l : List α)
    (h : ∀ x ∈ l, f x = Option.some (v x)) :
    optMap f l = Option.some (l.map v) := by
  induction l with
  | nil => rfl
  | cons a t ih =>
    have ha := h a (List.mem_cons_self a t)
    have ht := ih (fun x hx => h x (List.mem_cons_of_mem a hx))
    simp [optMap, ha, ht]

theorem optMap_length {α β : Type} (f : α → Option β) (l : List α) (l' : List β)
    (h : optMap f l = Option.some l') : l'.length = l.length := by
  induction l generalizing l' with
  | nil =>
    simp only [optMap] at h
    cases h
    rfl
  | cons a t ih =>
    simp only [optMap] at h
    cases hfa : f a with
    | none => rw [hfa] at h; cases h
    | some y =>
      cases hmt : optMap f t with
      | none => rw [hfa, hmt] at h; cases h
      | some ys =>
        rw [hfa, hmt] at h
        cases h
        simp [ih ys hmt]

theorem optMap_get {α β : Type} (f : α → Option β) (l : List α) (l' : List β)
    (h : optMap f l = Option.some l') :
    ∀ i (hi : i < l.length) (hi' : i < l'.length),
      f (l.get ⟨i, hi⟩) = Option.some (l'.get ⟨i, hi'⟩) := by
  induction l generalizing l' with
  | nil => intro i hi hi'; exact absurd hi (by simp)
  | cons a t ih =>
    intro i hi hi'
    simp only [optMap] at h
    cases hfa : f a with
    | none => rw [hfa] at h; cases h
    | some y =>
      cases hmt : optMap f t with
      | none => rw [hfa, hmt] at h; cases h
      | some ys =>
        rw [hfa, hmt] at h
        cases h
        cases i with
        | zero => simpa using hfa
        | succ j =>
          have hj : j < t.length := Nat.lt_of_succ_lt_succ hi
          have hj' : j < ys.length := Nat.lt_of_succ_lt_succ hi'
          simpa using ih ys hmt j hj hj'

theorem read_data_2d_of_entries (g : Grid) (dataname : String) (ch : Charge)
    (sc : Scaling) (noCore : Bool) (v : ℕ × ℕ → ℚ)
    (h : ∀ p ∈ cellList g, cellEntry g (rawFetch g dataname) ch sc noCore p = Option.some (v p)) :
    read_data_2d g dataname ch sc false noCore =
      Option.some ((cellList g).map (fun p => Option.some (v p))) := by
  have hc : read_core g (rawFetch g dataname) ch sc noCore =
      Option.some ((cellList g).map v) := optMap_map _ _ _ h
  unfold read_data_2d
  rw [hc]
  simp [applyFixFill, List.map_map, Function.comp]

theorem read_data_2d_false_inv (g : Grid) (dataname : String) (ch : Charge)
    (sc : Scaling) (noCore : Bool) (d : List (Option ℚ))
    (h : read_data_2d g dataname ch sc false noCore = Option.some d) :
    ∃ raw, read_core g (rawFetch g dataname) ch sc noCore = Option.some raw ∧
      d = raw.map Option.some := by
  unfold read_data_2d at h
  cases hc : read_core g (rawFetch g dataname) ch sc noCore with
  | none => rw [hc] at h; cases h
  | some raw =>
    rw [hc] at h
    refine ⟨raw, rfl, ?_⟩
    simp only [applyFixFill, if_neg (by simp : ¬ (false = true))] at h
    cases h
    rfl

theorem init_fold_spec (g : Grid) (contains : List (ℚ × ℚ) → ℚ × ℚ → Bool)
    (l : List (ℕ × ℕ)) :
    ∀ st : List (List (ℚ × ℚ)) × ℕ × List (ℕ × ℕ),
      (l.foldl (init_step g contains) st).1 =
        st.1 ++ (l.filter (fun p => decide (g.area p.1 p.2 ≠ 0))).map
          (fun p => cellVertices g p.1 p.2)
      ∧ (l.foldl (init_step g contains) st).2.1 =
        st.2.1 + (l.filter (fun p => decide (g.area p.1 p.2 ≠ 0))).length := by
  induction l with
  | nil => intro st; simp
  | cons p t ih =>
    intro st
    by_cases hp : g.area p.1 p.2 ≠ 0
    · have hstep : (p :: t).foldl (init_step g contains) st =
          t.foldl (init_step g contains) (init_step g contains st p) := rfl
      have h1 := (ih (init_step g contains st p)).1
      have h2 := (ih (init_step g contains st p)).2
      constructor
      · rw [hstep, h1]
        simp [init_step, if_pos hp, List.filter_cons, hp]
      · rw [hstep, h2]
        simp [init_step, if_pos hp, List.filter_cons, hp]
        omega
    · have hstep : (p :: t).foldl (init_step g contains) st =
          t.foldl (init_step g contains) st := by
        simp [List.foldl_cons, init_step, if_neg hp]
      constructor
      · rw [hstep, (ih st).1]
        simp [List.filter_cons, hp]
      · rw [hstep, (ih st).2]
        simp [List.filter_cons, hp]

theorem foldl_min_le_init (l : List ℚ) (a : ℚ) : l.foldl min a ≤ a := by
  induction l generalizing a with
  | nil => exact le_refl a
  | cons x t ih => exact le_trans (ih (min a x)) (min_le_left a x)

theorem foldl_min_le_mem (l : List ℚ) (a x : ℚ) : x ∈ l → l.foldl min a ≤ x := by
  induction l generalizing a with
  | nil => intro hx; exact absurd hx (List.not_mem_nil x)
  | cons y t ih =>
    intro hx
    rcases List.mem_cons.mp hx with h | h
    · subst h
      exact le_trans (foldl_min_le_init t (min a x)) (min_le_right a x)
    · exact ih (min a y) h

theorem foldl_min_mem (l : List ℚ) (a : ℚ) : l.foldl min a = a ∨ l.foldl min a ∈ l := by
  induction l generalizing a with
  | nil => exact Or.inl rfl
  | cons x t ih =>
    have hstep : (x :: t).foldl min a = t.foldl min (min a x) := rfl
    rcases ih (min a x) with h | h
    · rcases le_total a x with hax | hxa
      · left; rw [hstep, h, min_eq_left hax]
      · right; rw [hstep, h, min_eq_right hxa]; exact List.mem_cons_self x t
    · right; rw [hstep]; exact List.mem_cons_of_mem x h

theorem find?_first {α : Type} (p : α → Bool) (l : List α) (a : α) :
    l.find? p = Option.some a →
    ∃ n, ∃ hn : n < l.length, l.get ⟨n, hn⟩ = a ∧ p a = true ∧
      ∀ m (hm : m < l.length), m < n → p (l.get ⟨m, hm⟩) = false := by
  induction l with
  | nil => intro h; cases h
  | cons x t ih =>
    intro h
    cases hx : p x with
    | true =>
      rw [List.find?_cons_of_pos _ hx] at h
      obtain rfl : x = a := Option.some.inj h
      refine ⟨0, by simp, rfl, hx, ?_⟩
      intro m hm hm0
      exact absurd hm0 (Nat.not_lt_zero m)
    | false =>
      rw [List.find?_cons_of_neg _ (by simp [hx])] at h
      obtain ⟨n, hn, hget, hpa, hprev⟩ := ih h
      refine ⟨n + 1, by simpa using Nat.succ_lt_succ hn, by simpa using hget, hpa, ?_⟩
      intro m hm hmn
      cases m with
      | zero => simpa using hx
      | succ k =>
        have hk : k < t.length := Nat.lt_of_succ_lt_succ hm
        simpa using hprev k hk (Nat.lt_of_succ_lt_succ hmn)

theorem find?_some_of_mem {α : Type} (p : α → Bool) (l : List α) (x : α) :
    x ∈ l → p x = true → ∃ a, l.find? p = Option.some a := by
  induction l with
  | nil => intro hx _; exact absurd hx (List.not_mem_nil x)
  | cons y t ih =>
    intro hx hp
    cases hy : p y with
    | true => exact ⟨y, List.find?_cons_of_pos _ hy⟩
    | false =>
      rcases List.mem_cons.mp hx with h | h
      · subst h; rw [hp] at hy; cases hy
      · obtain ⟨a, ha⟩ := ih h hp
        exact ⟨a, by rw [List.find?_cons_of_neg _ (by simp [hy])]; exact ha⟩

theorem distSq_nonneg (g : Grid) (r z : ℚ) (p : ℕ × ℕ) : 0 ≤ distSq g r z p := by
  unfold distSq
  positivity

theorem applyFixFill_length (fixFill : Bool) (data : List ℚ) (d : List (Option ℚ))
    (h : applyFixFill fixFill data = Option.some d) : d.length = data.length := by
  cases fixFill with
  | false =>
    simp only [applyFixFill, Bool.false_eq_true, if_false] at h
    cases h
    simp
  | true =>
    simp only [applyFixFill, if_true] at h
    cases hm : listMax data with
    | none => rw [hm] at h; cases h
    | some m =>
      rw [hm] at h
      cases h
      simp

theorem read_data_2d_length (g : Grid) (dataname : String) (ch : Charge)
    (sc : Scaling) (fixFill noCore : Bool) (d : List (Option ℚ))
    (h : read_data_2d g dataname ch sc fixFill noCore = Option.some d) :
    d.length = num_cells g := by
  unfold read_data_2d at h
  cases hc : read_core g (rawFetch g dataname) ch sc noCore with
  | none => rw [hc] at h; cases h
  | some data =>
    rw [hc] at h
    have h1 := applyFixFill_length fixFill data d h
    have h2 := optMap_length _ _ _ hc
    rw [h1, h2]
    rfl

/-! ### Claim theorems -/

/-- Claim C1: for every loaded grid, read_data_2d flattens the 2-D field
into a 1-D array of length num_cells by the nested ring/knot loop in
ring-major, knot-minor order, skipping zero-area cells (the kept cells,
in order, are exactly cellList): the entry for cell (ir, ik) equals
raw_data[ir][ik] * scaling when charge is None, the axis-0 sum at
(ir, ik) times scaling when charge is "all", and
raw_data[charge + 1][ir][ik] * scaling for an integer charge state. -/
theorem read_data_2d_flattens (g : Grid) (dataname : String) (s : ℚ) :
    (∀ f, rawFetch g dataname = RawData.d2 f →
      read_data_2d g dataname Charge.cnone (Scaling.factor s) false false =
        Option.some ((cellList g).map (fun p => Option.some (f p.1 p.2 * s))))
    ∧ (∀ n f, rawFetch g dataname = RawData.d3 n f →
      read_data_2d g dataname Charge.call (Scaling.factor s) false false =
        Option.some ((cellList g).map (fun p =>
          Option.some (Finset.sum (Finset.range n) (fun c => f c p.1 p.2) * s))))
    ∧ (∀ n f c, rawFetch g dataname = RawData.d3 n f → c + 1 < n →
      read_data_2d g dataname (Charge.cstate c) (Scaling.factor s) false false =
        Option.some ((cellList g).map (fun p => Option.some (f (c + 1) p.1 p.2 * s))))
    ∧ (∀ ch d, read_data_2d g dataname ch (Scaling.factor s) false false = Option.some d →
        d.length = num_cells g) := by
  refine ⟨?_, ?_, ?_, ?_⟩
  · intro f hf
    apply read_data_2d_of_entries
    intro p _
    rw [hf]
    simp [cellEntry, cellVal]
  · intro n f hf
    apply read_data_2d_of_entries
    intro p _
    rw [hf]
    simp [cellEntry, cellVal]
  · intro n f c hf hlt
    apply read_data_2d_of_entries
    intro p _
    rw [hf]
    simp [cellEntry, cellVal, if_pos hlt]
  · intro ch d h
    exact read_data_2d_length g dataname ch (Scaling.factor s) false false d h

/-- Witness for C1 at a concrete grid: the None-charge formula applied
to the example grid with scaling 2. -/
theorem read_data_2d_flattens_witness :
    rawFetch exGrid "KVHS" = RawData.d2 exF
    ∧ read_data_2d exGrid "KVHS" Charge.cnone (Scaling.factor 2) false false =
        Option.some ((cellList exGrid).map (fun p => Option.some (exF p.1 p.2 * 2))) :=
  ⟨rfl, (read_data_2d_flattens exGrid "KVHS" 2).1 exF rfl⟩

/-- Claim C2: the mesh holds exactly one polygon per cell (ir, ik) with
nonzero area (the kept cells are characterised by ring and knot bounds
and a nonzero area, without duplicates), each polygon has exactly four
vertices taken from rvertp/zvertp at row korpg[ir,ik] - 1, num_cells is
the mesh length, and every array returned by read_data_2d has one entry
per mesh polygon. -/
theorem mesh_polygons (g : Grid) :
    (∀ ir ik, ((ir, ik) ∈ cellList g) ↔ (ir < g.nrs ∧ ik < g.nks ir ∧ g.area ir ik ≠ 0))
    ∧ (cellList g).Nodup
    ∧ mesh g = (cellList g).map (fun p => cellVertices g p.1 p.2)
    ∧ (∀ poly ∈ mesh g, poly.length = 4 ∧ ∃ ir ik, (ir, ik) ∈ cellList g ∧
        poly = (List.range 4).map (fun j =>
          (g.rvertp (g.korpg ir ik - 1) j, g.zvertp (g.korpg ir ik - 1) j)))
    ∧ num_cells g = (mesh g).length
    ∧ (∀ dataname ch sc fixFill noCore d,
        read_data_2d g dataname ch sc fixFill noCore = Option.some d →
        d.length = (mesh g).length) := by
  refine ⟨?_, ?_, rfl, ?_, ?_, ?_⟩
  · intro ir ik
    constructor
    · intro h
      rw [cellList, List.mem_filter] at h
      obtain ⟨hmem, harea⟩ := h
      rw [allCells, List.mem_flatMap] at hmem
      obtain ⟨a, ha, hmem2⟩ := hmem
      rw [List.mem_map] at hmem2
      obtain ⟨b, hb, heq⟩ := hmem2
      cases heq
      exact ⟨List.mem_range.mp ha, List.mem_range.mp hb, by simpa using harea⟩
    · intro h
      obtain ⟨h1, h2, h3⟩ := h
      rw [cellList, List.mem_filter]
      refine ⟨?_, by simpa using h3⟩
      rw [allCells, List.mem_flatMap]
      exact ⟨ir, List.mem_range.mpr h1, List.mem_map.mpr ⟨ik, List.mem_range.mpr h2, rfl⟩⟩
  · apply List.Nodup.filter
    rw [allCells, List.nodup_flatMap]
    constructor
    · intro ir _
      exact (List.nodup_range (g.nks ir)).map (fun a b h => by cases h; rfl)
    · refine (List.pairwise_lt_range g.nrs).imp ?_
      intro a b hab x hxa hxb
      rw [List.mem_map] at hxa hxb
      obtain ⟨i, _, rfl⟩ := hxa
      obtain ⟨j, _, hx⟩ := hxb
      injection hx with h1 h2
      omega
  · intro poly hp
    rw [mesh, List.mem_map] at hp
    obtain ⟨p, hpmem, rfl⟩ := hp
    exact ⟨by simp [cellVertices], p.1, p.2, hpmem, rfl⟩
  · simp [num_cells, mesh]
  · intro dataname ch sc fixFill noCore d h
    have := read_data_2d_length g dataname ch sc fixFill noCore d h
    rw [this]
    simp [num_cells, mesh]

/-- Witness for C2: a concrete successful read on the example grid has
one entry per mesh polygon. -/
theorem mesh_polygons_witness :
    read_data_2d exGrid "KVHS" Charge.cnone (Scaling.factor 1) false false =
      Option.some [Option.some 0, Option.some 1, Option.some 10, Option.some 11]
    ∧ ([Option.some (0:ℚ), Option.some 1, Option.some 10, Option.some 11]).length =
        (mesh exGrid).length := by
  have hread : read_data_2d exGrid "KVHS" Charge.cnone (Scaling.factor 1) false false =
      Option.some [Option.some 0, Option.some 1, Option.some 10, Option.some 11] := by
    with_unfolding_all rfl
  exact ⟨hread, (mesh_polygons exGrid).2.2.2.2.2 "KVHS" Charge.cnone (Scaling.factor 1)
    false false _ hread⟩

/-- Claim C3: the cell-centre-within-polygon sanity check only produces a
warning: for every outcome of the contains_point test, the mesh and
num_cells built by the constructor loop are the same, and equal to the
mesh and num_cells built with the check dropped; nothing is raised and no
cell is skipped because of a failed check. -/
theorem init_check_warning_only (g : Grid)
    (contains1 contains2 : List (ℚ × ℚ) → ℚ × ℚ → Bool) :
    (init_mesh g contains1).1 = mesh g
    ∧ (init_mesh g contains1).2.1 = num_cells g
    ∧ (init_mesh g contains1).1 = (init_mesh g contains2).1
    ∧ (init_mesh g contains1).2.1 = (init_mesh g contains2).2.1 := by
  have h1 := init_fold_spec g contains1 (allCells g) ([], 0, [])
  have h2 := init_fold_spec g contains2 (allCells g) ([], 0, [])
  refine ⟨?_, ?_, ?_, ?_⟩
  · rw [init_mesh, h1.1]
    simp [mesh, cellList]
  · rw [init_mesh, h1.2]
    simp [num_cells, cellList]
  · rw [init_mesh, init_mesh, h1.1, h2.1]
  · rw [init_mesh, init_mesh, h1.2, h2.2]

/-- Claim C4 (evidence of the code bug): on an object with no .dat file
loaded, read_data_2d_kvhs_t13 prints its warning but does not return, so
the subsequent attribute access on None raises an uncaught
AttributeError; the call therefore does not return the degraded -1 or
None values the spec describes. -/
theorem kvhs_t13_missing_dat_raises (parseFloat : String → Option ℚ) (noCore : Bool) :
    read_data_2d_kvhs_t13 exGrid parseFloat noCore = PyResult.raised "AttributeError"
    ∧ (∀ l, (PyResult.raised "AttributeError" : PyResult KvhsRet) ≠
        PyResult.ok (KvhsRet.data l))
    ∧ (PyResult.raised "AttributeError" : PyResult KvhsRet) ≠ PyResult.ok KvhsRet.negOne
    ∧ (PyResult.raised "AttributeError" : PyResult KvhsRet) ≠ PyResult.ok KvhsRet.noneVal := by
  refine ⟨rfl, ?_, ?_, ?_⟩
  · intro l h
    cases h
  · intro h
    cases h
  · intro h
    cases h

/-- Claim C6: the extraction functions are deterministic; two calls with
the same loaded state and the same arguments return the same results. -/
theorem extraction_deterministic (g : Grid) (dataname : String) (ch : Charge)
    (sc : Scaling) (fixFill noCore : Bool) (r z : ℚ) :
    read_data_2d g dataname ch sc fixFill noCore =
      read_data_2d g dataname ch sc fixFill noCore
    ∧ find_ring_knot g r z = find_ring_knot g r z :=
  ⟨rfl, rfl⟩

/-- Claim C7: the data-extraction methods have no effect on the cached
object state: the method-call views return the state unchanged, every
cached field included. -/
theorem calls_preserve_state (g : Grid) (dataname : String) (ch : Charge)
    (sc : Scaling) (fixFill noCore : Bool) (r z : ℚ) :
    (read_data_2d_call g dataname ch sc fixFill noCore).2 = g
    ∧ (get_sep_call g).2 = g
    ∧ (find_ring_knot_call g r z).2 = g :=
  ⟨rfl, rfl, rfl⟩

theorem get_map_some (l : List ℚ) (i : ℕ) (hi : i < (l.map Option.some).length)
    (hi' : i < l.length) :
    (l.map Option.some).get ⟨i, hi⟩ = Option.some (l.get ⟨i, hi'⟩) := by
  simp [List.get_eq_getElem, List.getElem_map]

/-- Claim C5 counterexample: with fix_fill=True the claim as stated
fails.  On the two-cell grid (core ring value 5, non-core ring value 3)
the masked call returns NaN at the non-core cell while the unmasked call
returns 3 there, because zeroing the core changes data.max() and hence
which entries the fill fix blanks out. -/
theorem no_core_fixfill_counterexample :
    read_data_2d cgrid "X" Charge.cnone (Scaling.factor 1) true true =
      Option.some [Option.some 0, Option.none]
    ∧ read_data_2d cgrid "X" Charge.cnone (Scaling.factor 1) true false =
      Option.some [Option.none, Option.some 3]
    ∧ ¬ ((1 : ℤ) < cgrid.irsep - 1)
    ∧ (Option.none : Option ℚ) ≠ Option.some 3 := by
  refine ⟨by with_unfolding_all rfl, by with_unfolding_all rfl, ?_, ?_⟩
  · with_unfolding_all decide
  · intro h
    cases h

/-- Claim C5 (amended): with fix_fill disabled and a numeric scaling,
read_data_2d with no_core=True returns 0.0 at every kept cell on a core
ring (ir < irsep - 1) and exactly the value of the no_core=False call at
every other kept cell. -/
theorem no_core_masks_core_only (g : Grid) (dataname : String) (ch : Charge) (s : ℚ)
    (d1 d2 : List (Option ℚ))
    (h1 : read_data_2d g dataname ch (Scaling.factor s) false true = Option.some d1)
    (h2 : read_data_2d g dataname ch (Scaling.factor s) false false = Option.some d2) :
    d1.length = num_cells g ∧ d2.length = num_cells g ∧
    ∀ i (hi : i < (cellList g).length) (hi1 : i < d1.length) (hi2 : i < d2.length),
      ((((cellList g).get ⟨i, hi⟩).1 : ℤ) < g.irsep - 1 →
          d1.get ⟨i, hi1⟩ = Option.some 0)
      ∧ (¬ ((((cellList g).get ⟨i, hi⟩).1 : ℤ) < g.irsep - 1) →
          d1.get ⟨i, hi1⟩ = d2.get ⟨i, hi2⟩) := by
  obtain ⟨raw1, hc1, hd1⟩ :=
    read_data_2d_false_inv g dataname ch (Scaling.factor s) true d1 h1
  obtain ⟨raw2, hc2, hd2⟩ :=
    read_data_2d_false_inv g dataname ch (Scaling.factor s) false d2 h2
  have hl1 : raw1.length = (cellList g).length := optMap_length _ _ _ hc1
  have hl2 : raw2.length = (cellList g).length := optMap_length _ _ _ hc2
  refine ⟨by rw [hd1]; simpa [num_cells] using hl1,
          by rw [hd2]; simpa [num_cells] using hl2, ?_⟩
  intro i hi hi1 hi2
  have hr1 : i < raw1.length := by rw [hl1]; exact hi
  have hr2 : i < raw2.length := by rw [hl2]; exact hi
  have e1 := optMap_get _ _ _ hc1 i hi hr1
  have e2 := optMap_get _ _ _ hc2 i hi hr2
  have hg1 : d1.get ⟨i, hi1⟩ = Option.some (raw1.get ⟨i, hr1⟩) := by
    subst hd1
    exact get_map_some raw1 i hi1 hr1
  have hg2 : d2.get ⟨i, hi2⟩ = Option.some (raw2.get ⟨i, hr2⟩) := by
    subst hd2
    exact get_map_some raw2 i hi2 hr2
  cases hv : cellVal (rawFetch g dataname) ch ((cellList g).get ⟨i, hi⟩).1
      ((cellList g).get ⟨i, hi⟩).2 with
  | none =>
    rw [cellEntry, hv] at e1
    cases e1
  | some v =>
    rw [cellEntry, hv] at e1
    rw [cellEntry, hv] at e2
    have e1' := Option.some.inj e1
    have e2' := Option.some.inj e2
    constructor
    · intro hcore
      rw [hg1, ← e1']
      rw [if_pos ⟨rfl, hcore⟩]
    · intro hcore
      rw [hg1, hg2, ← e1', ← e2']
      rw [if_neg (fun hc => hcore hc.2), if_neg (fun hc => by cases hc.1)]

/-- Witness for C5 (amended) on the example grid: concrete masked and
unmasked reads, and the length part of the conclusion. -/
theorem no_core_masks_core_only_witness :
    read_data_2d exGrid "KVHS" Charge.cnone (Scaling.factor 1) false true =
      Option.some [Option.some 0, Option.some 0, Option.some 10, Option.some 11]
    ∧ read_data_2d exGrid "KVHS" Charge.cnone (Scaling.factor 1) false false =
      Option.some [Option.some 0, Option.some 1, Option.some 10, Option.some 11]
    ∧ ([Option.some (0:ℚ), Option.some 0, Option.some 10, Option.some 11]).length =
        num_cells exGrid := by
  have h1 : read_data_2d exGrid "KVHS" Charge.cnone (Scaling.factor 1) false true =
      Option.some [Option.some 0, Option.some 0, Option.some 10, Option.some 11] := by
    with_unfolding_all rfl
  have h2 : read_data_2d exGrid "KVHS" Charge.cnone (Scaling.factor 1) false false =
      Option.some [Option.some 0, Option.some 1, Option.some 10, Option.some 11] := by
    with_unfolding_all rfl
  exact ⟨h1, h2,
    (no_core_masks_core_only exGrid "KVHS" Charge.cnone 1 _ _ h1 h2).1⟩

/-- Claim C8: with fix_fill=True, every entry equal to the maximum of
the assembled data array is replaced by NaN (the None written into the
float array); the replacement is keyed on data.max() rather than the
netCDF fill constant, so no entry of the returned array equals the
pre-replacement maximum, whether or not that maximum was a fill value. -/
theorem fix_fill_replaces_max (g : Grid) (dataname : String) (ch : Charge)
    (sc : Scaling) (noCore : Bool) (raw : List ℚ) (m : ℚ)
    (h : read_core g (rawFetch g dataname) ch sc noCore = Option.some raw)
    (hm : listMax raw = Option.some m) :
    read_data_2d g dataname ch sc true noCore =
      Option.some (raw.map (fun x => if x = m then Option.none else Option.some x))
    ∧ ∀ e ∈ raw.map (fun x => if x = m then Option.none else Option.some x),
        e ≠ Option.some m := by
  constructor
  · unfold read_data_2d
    rw [h]
    simp [applyFixFill, hm]
  · intro e he
    rw [List.mem_map] at he
    obtain ⟨x, hx, rfl⟩ := he
    by_cases hxm : x = m
    · rw [if_pos hxm]
      intro hcon
      cases hcon
    · rw [if_neg hxm]
      intro hcon
      exact hxm (Option.some.inj hcon)

/-- Witness for C8 on the example grid: the pre-replacement data is
[0, 1, 10, 11] with maximum 11, and the fixed read blanks exactly the
entries equal to 11. -/
theorem fix_fill_replaces_max_witness :
    read_core exGrid (rawFetch exGrid "KVHS") Charge.cnone (Scaling.factor 1) false =
      Option.some [0, 1, 10, 11]
    ∧ listMax [0, 1, 10, 11] = Option.some 11
    ∧ read_data_2d exGrid "KVHS" Charge.cnone (Scaling.factor 1) true false =
      Option.some (([(0:ℚ), 1, 10, 11]).map
        (fun x => if x = 11 then Option.none else Option.some x)) := by
  have h1 : read_core exGrid (rawFetch exGrid "KVHS") Charge.cnone
      (Scaling.factor 1) false = Option.some [0, 1, 10, 11] := by
    with_unfolding_all rfl
  have h2 : listMax [(0:ℚ), 1, 10, 11] = Option.some 11 := by
    with_unfolding_all rfl
  exact ⟨h1, h2,
    (fix_fill_replaces_max exGrid "KVHS" Charge.cnone (Scaling.factor 1) false
      [0, 1, 10, 11] 11 h1 h2).1⟩

/-- Claim C9: find_ring_knot returns the index pair of the cell-centre
arrays minimising the Euclidean distance to (r, z), and among ties it
returns the first pair in row-major order. -/
theorem find_ring_knot_closest (g : Grid) (r z : ℚ) (hne : allIdx g ≠ []) :
    ClosestSpec g r z := by
  obtain ⟨q, qs, heq⟩ : ∃ q qs, allIdx g = q :: qs := by
    cases h : allIdx g with
    | nil => exact absurd h hne
    | cons q qs => exact ⟨q, qs, rfl⟩
  have hdmin : dminOf g r z = (qs.map (distSq g r z)).foldl min (distSq g r z q) := by
    rw [dminOf, heq]
  have hlb : ∀ p ∈ allIdx g, dminOf g r z ≤ distSq g r z p := by
    intro p hp
    rw [heq] at hp
    rcases List.mem_cons.mp hp with h | h
    · rw [h, hdmin]
      exact foldl_min_le_init _ _
    · rw [hdmin]
      exact foldl_min_le_mem _ _ _ (List.mem_map_of_mem _ h)
  have hattain : ∃ p ∈ allIdx g, distSq g r z p = dminOf g r z := by
    rcases foldl_min_mem (qs.map (distSq g r z)) (distSq g r z q) with h | h
    · refine ⟨q, by rw [heq]; exact List.mem_cons_self q qs, ?_⟩
      rw [hdmin]
      exact h.symm
    · obtain ⟨p, hp, hfp⟩ := List.mem_map.mp h
      refine ⟨p, by rw [heq]; exact List.mem_cons_of_mem q hp, ?_⟩
      rw [hdmin]
      exact hfp
  obtain ⟨p0, hp0mem, hp0⟩ := hattain
  obtain ⟨a, ha⟩ := find?_some_of_mem
    (fun p => decide (distSq g r z p = dminOf g r z)) (allIdx g) p0 hp0mem
    (by simp [hp0])
  have hfrk : find_ring_knot g r z = a := by
    rw [find_ring_knot, ha]
    rfl
  obtain ⟨n, hn, hget, hpa, hprev⟩ := find?_first _ _ _ ha
  have hda : distSq g r z a = dminOf g r z := of_decide_eq_true hpa
  refine ⟨?_, ?_, ?_⟩
  · rw [hfrk, ← hget]
    exact List.get_mem _ _ _
  · intro p hp
    rw [hfrk]
    apply Real.sqrt_le_sqrt
    have hle : distSq g r z a ≤ distSq g r z p := by
      rw [hda]
      exact hlb p hp
    exact_mod_cast hle
  · refine ⟨n, hn, by rw [hfrk]; exact hget, ?_⟩
    intro m hm hmn
    rw [hfrk]
    have hne2 : ¬ distSq g r z ((allIdx g).get ⟨m, hm⟩) = dminOf g r z :=
      of_decide_eq_false (hprev m hm hmn)
    have hlt : distSq g r z a < distSq g r z ((allIdx g).get ⟨m, hm⟩) := by
      have hge := hlb _ (List.get_mem (allIdx g) m hm)
      rw [hda]
      rcases lt_or_eq_of_le hge with hx | hx
      · exact hx
      · exact absurd hx.symm hne2
    apply Real.sqrt_lt_sqrt
    · exact_mod_cast distSq_nonneg g r z a
    · exact_mod_cast hlt

/-- Witness for C9: the index list of the example grid is nonempty and
the returned pair satisfies the closest-cell specification. -/
theorem find_ring_knot_closest_witness :
    allIdx exGrid ≠ [] ∧ ClosestSpec exGrid 0 0 :=
  ⟨by with_unfolding_all decide,
    find_ring_knot_closest exGrid 0 0 (by with_unfolding_all decide)⟩

/-- Claim C10: get_sep returns exactly nsep - 2 segments; segment i
joins separatrix vertices i and i+1, so every vertex index used is at
most nsep - 2: the polyline is open and the final vertex (index
nsep - 1) appears in no segment. -/
theorem get_sep_open_polyline (g : Grid) (h : 1 ≤ g.irsep) :
    (get_sep g).length = nsep g - 2
    ∧ ∀ i (hi : i < (get_sep g).length),
        (get_sep g).get ⟨i, hi⟩ =
          ((rsep g i, zsep g i), (rsep g (i + 1), zsep g (i + 1)))
        ∧ i + 1 ≤ nsep g - 2 := by
  have hlen : (get_sep g).length = nsep g - 2 := by simp [get_sep]
  refine ⟨hlen, ?_⟩
  intro i hi
  have hi' : i < nsep g - 2 := hlen ▸ hi
  constructor
  · simp [get_sep, List.get_eq_getElem]
  · omega

/-- Witness for C10: the example grid has irsep = 2, and get_sep on it
has length nsep - 2. -/
theorem get_sep_open_polyline_witness :
    (1 : ℤ) ≤ exGrid.irsep ∧ (get_sep exGrid).length = nsep exGrid - 2 :=
  ⟨by with_unfolding_all decide,
    (get_sep_open_polyline exGrid (by with_unfolding_all decide)).1⟩

end Oedge
